import Mathlib

/-!
# Verification of the `pairlock` crate's publication protocol

Shallow embedding of `src/pairlock.rs` (`PairLock<T>`, `UpdateGuard`,
`TryUpdateError`) and `src/arccell.rs` (`ArcCell<T>`).

Machine integers (`usize`) are modelled as `Nat` reduced modulo `W = 2^64`;
the source relies on wrapping arithmetic and only ever tests equality of
counters, so the modulus is carried explicitly.  Sequential (single-threaded)
semantics: each public operation is a function from state to state, which is
faithful to the source whenever no two operations overlap; the writer's
drain-wait and lock-acquisition loops are additionally embedded as action
traces to reason about their spin/yield structure.
-/

namespace Pairlock

/-- Modulus of `usize` arithmetic (the crate is built for 64-bit targets;
only evenness of the modulus matters for the protocol). -/
def W : Nat := 2 ^ 64

/-- `n & 1` of the source, as a slot index.  (`Nat.land n 1 = n % 2`.) -/
def slotOf (n : Nat) : Fin 2 :=
  ⟨n &&& 1, by simp [Nat.and_one_is_mod]; omega⟩

/-- `slot ^ 1` of the source: the other slot. -/
def otherSlot (s : Fin 2) : Fin 2 :=
  ⟨s.val ^^^ 1, by fin_cases s <;> decide⟩

/-- State of a `PairLock<T>`: the four fields of the struct
(`reads_active`, `finished_reads`, `values`, `inactive_reads`) plus whether
the writer mutex is currently held (`locked`), needed to model `try_update`
contention. -/
structure State (T : Type) where
  reads_active : Nat
  finished_reads : Fin 2 → Nat
  values : Fin 2 → T
  inactive_reads : Nat
  locked : Bool

/-- `PairLock::new(active, inactive)` (src/pairlock.rs:68-78):
`reads_active` starts at 0, `finished_reads` at `[0, !0]`,
the mutex-protected drain target at `!0`. -/
def pairLockNew (active inactive : T) : State T :=
  { reads_active := 0
    finished_reads := fun i => if i = 0 then 0 else W - 1
    values := fun i => if i = 0 then active else inactive
    inactive_reads := W - 1
    locked := false }

/-- The slot readers currently observe: bit 0 of `reads_active`. -/
def activeSlot (s : State T) : Fin 2 := slotOf s.reads_active

/-- The other slot, target of the next write. -/
def inactiveSlot (s : State T) : Fin 2 := otherSlot (activeSlot s)

/-- The value a read observes in state `s`. -/
def readVal (s : State T) : T := s.values (activeSlot s)

/-- Counter effect of one `view` (src/pairlock.rs:101-119): `fetch_add(2)` on
`reads_active`, then (via the `Releaser` drop guard) `fetch_add(2)` on
`finished_reads[slot]` where `slot` is bit 0 of the fetched value. -/
def viewStep (s : State T) : State T :=
  let active := s.reads_active
  let slot := slotOf active
  { s with
      reads_active := (s.reads_active + 2) % W
      finished_reads :=
        Function.update s.finished_reads slot ((s.finished_reads slot + 2) % W) }

/-- `PairLock::view` (src/pairlock.rs:101-119), sequential semantics:
returns the closure's result on the active value together with the new
counter state. -/
def view (viewer : T → R) (s : State T) : R × State T :=
  (viewer (s.values (slotOf s.reads_active)), viewStep s)

/-- `PairLock::view` with an unwinding closure (`Except.error` plays the role
of a panic).  The `Releaser` struct's `Drop` impl runs when the scope is left
on either path, so the `finished_reads` increment is applied in both
branches (src/pairlock.rs:106-116). -/
def viewUnwind (viewer : T → Except E R) (s : State T) : Except E R × State T :=
  let active := s.reads_active
  let slot := slotOf active
  match viewer (s.values slot) with
  | Except.ok r => (Except.ok r, viewStep s)
  | Except.error e => (Except.error e, viewStep s)

/-- `PairLock::get_clone` (src/pairlock.rs:123-125): `view(|v| v.clone())`;
`clone` of a value is modelled as the value itself. -/
def get_clone (s : State T) : T × State T := view id s

/-- `PairLock::read` for `T: Copy` (src/pairlock.rs:306-308): `get_clone`. -/
def read (s : State T) : T × State T := get_clone s

/-- `PairLock::<Arc<T>>::get` (src/pairlock.rs:298-300): `get_clone`. -/
def get (s : State T) : T × State T := get_clone s

/-- `update()` followed by dropping the guard after mutating the inactive
slot with `g` (for a plain drop, `g = id`).  `UpdateGuard::drop`
(src/pairlock.rs:359-369): reads the guarded drain target, swaps it into
`reads_active`, and stores the returned old `reads_active` back as the new
drain target. -/
def updateDrop (g : T → T) (s : State T) : State T :=
  let inactive_reads := s.inactive_reads
  let slot := slotOf inactive_reads
  { s with
      values := Function.update s.values slot (g (s.values slot))
      reads_active := inactive_reads
      inactive_reads := s.reads_active }

/-- `update()` followed by `UpdateGuard::cancel` after mutating with `g`
(src/pairlock.rs:414-422): the mutex is released without touching
`reads_active` or the guarded value; mutations stay in the inactive slot. -/
def updateCancel (g : T → T) (s : State T) : State T :=
  let slot := slotOf s.inactive_reads
  { s with values := Function.update s.values slot (g (s.values slot)) }

/-- `PairLock::set` (src/pairlock.rs:235-237):
`mem::replace(&mut *self.update(), value)` — returns the displaced inactive
value and publishes `value`. -/
def set (value : T) (s : State T) : T × State T :=
  let slot := slotOf s.inactive_reads
  (s.values slot, updateDrop (fun _ => value) s)

/-- `PairLock::into_inner` (src/pairlock.rs:248-259): the active slot index is
bit 0 of `reads_active`; returns `(values[active], values[active^1])`. -/
def into_inner (s : State T) : T × T :=
  let active := slotOf s.reads_active
  (s.values active, s.values (otherSlot active))

/-- `impl Clone for PairLock` (src/pairlock.rs:338-340):
`Self::new(self.get_clone(), self.get_clone())`.  Returns the fresh lock and
the source state after its two reads. -/
def clonePairLock (s : State T) : State T × State T :=
  let (a, s1) := get_clone s
  let (b, s2) := get_clone s1
  (pairLockNew a b, s2)

/-- `Clone::clone_from` (src/pairlock.rs:341-349): with exclusive access,
`values[0].clone_from(source active value)` inside a view of the source, then
`values[1].clone_from(&values[0])`.  Returns the updated destination and the
source state after its read. -/
def cloneFromPairLock (dest src : State T) : State T × State T :=
  let (init, src') := view id src
  let d1 : State T := { dest with values := Function.update dest.values 0 init }
  let d2 : State T := { d1 with values := Function.update d1.values 1 (d1.values 0) }
  (d2, src')

/-- States reachable from construction by complete public operations
(each executed outside any other's critical section). -/
inductive Reach : State T → Prop where
  | new (active inactive : T) : Reach (pairLockNew active inactive)
  | view {s : State T} : Reach s → Reach (viewStep s)
  | update (g : T → T) {s : State T} : Reach s → Reach (updateDrop g s)
  | cancel (g : T → T) {s : State T} : Reach s → Reach (updateCancel g s)

/-- The protocol invariant: bit 0 of the drain target names the inactive
slot, the inactive slot is drained (`finished_reads[I]` equals the drain
target), counters are reduced mod `W`, and the writer lock is free. -/
def Inv (s : State T) : Prop :=
  slotOf s.inactive_reads = inactiveSlot s ∧
  s.finished_reads (slotOf s.inactive_reads) = s.inactive_reads ∧
  s.reads_active < W ∧ s.inactive_reads < W ∧
  (∀ i, s.finished_reads i < W) ∧ s.locked = false

instance {T : Type} [DecidableEq T] (s : State T) : Decidable (Inv s) := by
  unfold Inv
  infer_instance

/-- `TryUpdateError` (src/pairlock.rs:445-450). -/
inductive TryUpdateError where
  | OtherUpdate
  | InactiveReads
deriving DecidableEq, Repr

/-- The data of an `UpdateGuard` relevant to the protocol: the mutex-guarded
drain-target value it holds (src/pairlock.rs:355-358). -/
structure GuardData where
  guard : Nat
deriving DecidableEq, Repr

/-- `PairLock::try_update` (src/pairlock.rs:219-228) together with
`check_inactive` (src/pairlock.rs:133-143).  If the mutex is held the
`try_lock` reports `WouldBlock` and `OtherUpdate` is returned with the state
untouched.  Otherwise the lock is taken; if `finished_reads[target & 1]`
equals the guarded target, the guard is returned with the lock still held;
otherwise `map_err` drops the mutex guard — releasing the lock — and
`InactiveReads` is returned. -/
def tryUpdate (s : State T) : Except TryUpdateError GuardData × State T :=
  if s.locked then
    (Except.error TryUpdateError.OtherUpdate, s)
  else
    let inactive_reads := s.inactive_reads
    let slot := slotOf inactive_reads
    if s.finished_reads slot = inactive_reads then
      (Except.ok ⟨inactive_reads⟩, { s with locked := true })
    else
      (Except.error TryUpdateError.InactiveReads, { s with locked := false })

/-! ## ArcCell (src/arccell.rs)

Same protocol, specialized to `Arc<T>`; slots are modelled by the stored
pointer value (an arbitrary type `A`).  Field names follow the struct:
`reads_current`, `finished_reads`, `arcs`, `prev_reads`. -/

/-- State of an `ArcCell<T>` (src/arccell.rs:19-36). -/
structure ArcState (A : Type) where
  reads_current : Nat
  finished_reads : Fin 2 → Nat
  arcs : Fin 2 → A
  prev_reads : Nat

/-- The counter start used by `ArcCell::new` (src/arccell.rs:56):
`!0 << 2` under `cfg!(debug_assertions)`, else `0`; shifting `!0` left by 2
on a 64-bit target gives `2^64 - 4`. -/
def arcReadsStart (debug : Bool) : Nat :=
  if debug then ((W - 1) <<< 2) % W else 0

/-- `ArcCell::new` (src/arccell.rs:54-70): both slots hold the same pointer;
`finished_reads` starts at `[reads_start, reads_start + 1]` and the mutex at
`reads_start + 1`. -/
def arcCellNew (debug : Bool) (init : A) : ArcState A :=
  let reads_start := arcReadsStart debug
  { reads_current := reads_start
    finished_reads := fun i => if i = 0 then reads_start else (reads_start + 1) % W
    arcs := fun _ => init
    prev_reads := (reads_start + 1) % W }

/-- The slot an `ArcCell` read observes. -/
def arcActiveSlot (s : ArcState A) : Fin 2 := slotOf s.reads_current

/-- Counter effect of one `ArcCell::get` (src/arccell.rs:119-131). -/
def arcGetStep (s : ArcState A) : ArcState A :=
  let current := s.reads_current
  let slot := slotOf current
  { s with
      reads_current := (s.reads_current + 2) % W
      finished_reads :=
        Function.update s.finished_reads slot ((s.finished_reads slot + 2) % W) }

/-- `ArcCell::get` (src/arccell.rs:119-131): clone of the active pointer plus
the counter effect. -/
def arcGet (s : ArcState A) : A × ArcState A :=
  (s.arcs (slotOf s.reads_current), arcGetStep s)

/-- `ArcCell::set` (src/arccell.rs:78-114), sequential semantics (the drain
wait has terminated): `next_active = prev_reads & 1`; the new pointer is
stored in that slot, `reads_current` is swapped with `prev_reads`, and the
returned old `reads_current` becomes the new guarded value.  Returns the
displaced pointer (dropped after the lock is released) and the new state. -/
def arcSet (arc : A) (s : ArcState A) : A × ArcState A :=
  let prev_reads := s.prev_reads
  let next_active := slotOf prev_reads
  (s.arcs next_active,
   { s with
      arcs := Function.update s.arcs next_active arc
      reads_current := prev_reads
      prev_reads := s.reads_current })

/-- `ArcCell` states reachable from construction by complete operations. -/
inductive ArcReach : ArcState A → Prop where
  | new (debug : Bool) (init : A) : ArcReach (arcCellNew debug init)
  | get {s : ArcState A} : ArcReach s → ArcReach (arcGetStep s)
  | set (arc : A) {s : ArcState A} : ArcReach s → ArcReach ((arcSet arc s).2)

/-- Bit-0 invariant for `ArcCell`: the guarded drain target names the
inactive slot. -/
def arcBitInv (s : ArcState A) : Prop :=
  slotOf s.prev_reads = otherSlot (arcActiveSlot s)

/-! ## Writer acquisition traces (for the spin/yield policy)

The drain-wait loops of `PairLock::update` (src/pairlock.rs:186-203) and
`ArcCell::set` (src/arccell.rs:80-101) are embedded as lists of scheduler-
visible actions.  `drained t` abstracts the value of the test
`finished_reads[slot] == target` at its `t`-th evaluation; `fuel` bounds the
number of rounds so the generator is total. -/

/-- Actions a writer's acquisition loop performs. -/
inductive WAction where
  | lock
  | check
  | spin
  | unlock
  | yieldNow
  | acquire
deriving DecidableEq, Repr

/-- `MAX_UPDATE_SPINS` (src/pairlock.rs:19). -/
def MAX_UPDATE_SPINS : Nat := 7

/-- The inner `for _ in 0..MAX_UPDATE_SPINS` loop of `PairLock::update`
(src/pairlock.rs:191-197): each iteration checks `check_inactive` and, on
failure, issues `spin_loop_hint`.  Returns the emitted actions, whether the
guard was obtained, and the next check-time. -/
def spinRound (drained : Nat → Bool) (t : Nat) : Nat → List WAction × Bool × Nat
  | 0 => ([], false, t)
  | n + 1 =>
    if drained t then
      ([WAction.check, WAction.acquire], true, t + 1)
    else
      let rest := spinRound drained (t + 1) n
      (WAction.check :: WAction.spin :: rest.1, rest.2.1, rest.2.2)

/-- The outer `loop` of `PairLock::update` (src/pairlock.rs:186-203): lock the
mutex, run the spin round; on failure drop the mutex guard (release before
yielding), `yield_now()`, and restart. -/
def updateLoopTrace (drained : Nat → Bool) (t : Nat) : Nat → List WAction
  | 0 => []
  | fuel + 1 =>
    let round := spinRound drained t MAX_UPDATE_SPINS
    if round.2.1 then
      WAction.lock :: round.1
    else
      WAction.lock :: round.1 ++
        [WAction.unlock, WAction.yieldNow] ++ updateLoopTrace drained round.2.2 fuel

/-- The `while` loop of `ArcCell::set` (src/arccell.rs:94-100): re-check, and
yield while the mutex stays held. -/
def arcSetWhile (drained : Nat → Bool) (t : Nat) : Nat → List WAction
  | 0 => []
  | fuel + 1 =>
    if drained t then
      [WAction.check, WAction.acquire]
    else
      WAction.check :: WAction.yieldNow :: arcSetWhile drained (t + 1) fuel

/-- The drain-wait of `ArcCell::set` (src/arccell.rs:80-101): lock, one
check; on failure four `spin_loop_hint()`s, then the yield loop — the mutex
is never released before the slot drains. -/
def arcSetTrace (drained : Nat → Bool) (fuel : Nat) : List WAction :=
  if drained 0 then
    [WAction.lock, WAction.check, WAction.acquire]
  else
    WAction.lock :: WAction.check ::
      WAction.spin :: WAction.spin :: WAction.spin :: WAction.spin ::
      arcSetWhile drained 1 fuel

/-- Checks that every `yieldNow` in the trace happens while the lock is not
held (`held` tracks the mutex through `lock`/`unlock`). -/
def yieldsOnlyUnlocked : Bool → List WAction → Bool
  | _, [] => true
  | _, WAction.lock :: rest => yieldsOnlyUnlocked true rest
  | _, WAction.unlock :: rest => yieldsOnlyUnlocked false rest
  | held, WAction.yieldNow :: rest => !held && yieldsOnlyUnlocked held rest
  | held, _ :: rest => yieldsOnlyUnlocked held rest

/-- Checks that no lock-holding period contains more than `bound` spins
(`cnt` counts spins since the last `lock`). -/
def spinsBounded (bound : Nat) : Nat → List WAction → Bool
  | _, [] => true
  | _, WAction.lock :: rest => spinsBounded bound 0 rest
  | cnt, WAction.spin :: rest => decide (cnt + 1 ≤ bound) && spinsBounded bound (cnt + 1) rest
  | cnt, _ :: rest => spinsBounded bound cnt rest

/-! ## Memory orderings of the two reader paths -/

/-- The C++11-style atomic orderings used in the source. -/
inductive MemOrder where
  | relaxed
  | acquire
  | release
  | seqcst
deriving DecidableEq, Repr

/-- Orderings a reader path uses: on the entry `fetch_add(2)`, an optional
standalone fence before the exit increment, and on the exit `fetch_add(2)`. -/
structure ReaderPath where
  entry : MemOrder
  exitFence : Option MemOrder
  exit : MemOrder
deriving DecidableEq, Repr

/-- `PairLock::view` (src/pairlock.rs:104,111,113): entry
`fetch_add(2, SeqCst)`; on exit `fence(SeqCst)` then `fetch_add(2, Relaxed)`. -/
def pairLockViewPath : ReaderPath :=
  { entry := MemOrder.seqcst
    exitFence := some MemOrder.seqcst
    exit := MemOrder.relaxed }

/-- `ArcCell::get` (src/arccell.rs:121,128): entry `fetch_add(2, Acquire)`;
exit `fetch_add(2, Release)`, no fence. -/
def arcCellGetPath : ReaderPath :=
  { entry := MemOrder.acquire
    exitFence := none
    exit := MemOrder.release }

/-- Spec option (a): sequentially-consistent ordering on both counter
updates. -/
def optionA (p : ReaderPath) : Prop :=
  p.entry = MemOrder.seqcst ∧ p.exit = MemOrder.seqcst

/-- Spec option (b): acquire-ordered entry, sequentially-consistent fence
followed by a relaxed exit increment. -/
def optionB (p : ReaderPath) : Prop :=
  p.entry = MemOrder.acquire ∧ p.exitFence = some MemOrder.seqcst ∧
  p.exit = MemOrder.relaxed

instance (p : ReaderPath) : Decidable (optionA p) := by
  unfold optionA; infer_instance

instance (p : ReaderPath) : Decidable (optionB p) := by
  unfold optionB; infer_instance

/-- Initial-state shape. Modelled from the spec: "`active_counter` starts at
some even constant `k`; `finished[k&1]` starts at `k`; `finished[k^1&1]`
starts at `k⊕1`; `drain_target` starts at `k⊕1`" (spec §3, claim C6). -/
def specInitShape (k : Nat) (s : State T) : Prop :=
  k % 2 = 0 ∧ s.reads_active = k ∧
  s.finished_reads (slotOf k) = k ∧
  s.finished_reads (otherSlot (slotOf k)) = k ^^^ 1 ∧
  s.inactive_reads = k ^^^ 1

/-- The same claimed initial shape for the `ArcCell` variant. Modelled from
the spec (§3, claim C6). -/
def arcSpecInitShape (k : Nat) (s : ArcState A) : Prop :=
  k % 2 = 0 ∧ s.reads_current = k ∧
  s.finished_reads (slotOf k) = k ∧
  s.finished_reads (otherSlot (slotOf k)) = k ^^^ 1 ∧
  s.prev_reads = k ^^^ 1

/-! ## Helper lemmas -/

theorem slotOf_add_two_mod (n : Nat) : slotOf ((n + 2) % W) = slotOf n := by
  apply Fin.ext
  simp only [slotOf, Nat.and_one_is_mod]
  rw [Nat.mod_mod_of_dvd _ (by norm_num [W] : 2 ∣ W)]
  omega

theorem otherSlot_otherSlot (s : Fin 2) : otherSlot (otherSlot s) = s := by
  fin_cases s <;> rfl

theorem otherSlot_ne (s : Fin 2) : otherSlot s ≠ s := by
  fin_cases s <;> decide

theorem activeSlot_viewStep (s : State T) : activeSlot (viewStep s) = activeSlot s := by
  simp [activeSlot, viewStep, slotOf_add_two_mod]

theorem readVal_viewStep (s : State T) : readVal (viewStep s) = readVal s := by
  simp [readVal, activeSlot, viewStep, slotOf_add_two_mod]

theorem readVal_viewStep_iterate (s : State T) (n : Nat) :
    readVal (viewStep^[n] s) = readVal s := by
  induction n generalizing s with
  | zero => rfl
  | succ n ih => rw [Function.iterate_succ_apply, ih, readVal_viewStep]

/-! ## Claims -/

/-- C8: `into_inner(new(a, b)) = (a, b)` — the first component is the active
value, the second the inactive one. -/
theorem into_inner_new (a b : T) :
    into_inner (pairLockNew a b) = (a, b) ∧
    into_inner (pairLockNew a b) =
      (readVal (pairLockNew a b), (pairLockNew a b).values (inactiveSlot (pairLockNew a b))) := by
  have h0 : slotOf 0 = 0 := by decide
  have h1 : otherSlot 0 = 1 := by decide
  constructor <;>
    simp [into_inner, pairLockNew, readVal, activeSlot, inactiveSlot, h0, h1]

/-- C2: dropping an update guard without mutating publishes the value that
was in the inactive slot; concretely, `PairLock::new("foo", "bar")` followed
by `update()` and dropping the guard makes `read()` return `"bar"`. -/
theorem updateDrop_id_publishes_inactive :
    (∀ (T : Type) (s : State T), Inv s →
      readVal (updateDrop id s) = s.values (inactiveSlot s)) ∧
    (read (updateDrop id (pairLockNew "foo" "bar"))).1 = "bar" := by
  constructor
  · intro T s h
    simp only [readVal, activeSlot, updateDrop, h.1]
    simp [Function.update_apply]
  · decide

theorem updateDrop_id_publishes_inactive_witness :
    readVal (updateDrop id (pairLockNew (1 : Nat) 0)) =
      (pairLockNew (1 : Nat) 0).values (inactiveSlot (pairLockNew (1 : Nat) 0)) :=
  updateDrop_id_publishes_inactive.1 Nat (pairLockNew 1 0) (by decide)

/-- C1: after `set(v)`, a subsequent read (`view`/`read`/`get_clone`/`get`,
possibly after further reads but with no intervening write) returns `v`, and
`set(v)` itself returns the value that was in the inactive slot when it was
called. -/
theorem set_publishes (v : T) (s : State T) (h : Inv s) :
    (set v s).1 = s.values (inactiveSlot s) ∧
    readVal (set v s).2 = v ∧
    (∀ (R : Type) (f : T → R), (view f (set v s).2).1 = f v) ∧
    (get_clone (set v s).2).1 = v ∧
    (read (set v s).2).1 = v ∧
    (get (set v s).2).1 = v ∧
    (∀ n, readVal (viewStep^[n] (set v s).2) = v) := by
  have hread : readVal (set v s).2 = v := by
    simp [set, readVal, activeSlot, updateDrop, Function.update_apply]
  refine ⟨?_, hread, ?_, ?_, ?_, ?_, ?_⟩
  · simp only [set, h.1]
  · intro R f
    simpa [view, readVal, activeSlot] using congrArg f hread
  · simpa [get_clone, view, readVal, activeSlot] using hread
  · simpa [read, get_clone, view, readVal, activeSlot] using hread
  · simpa [get, get_clone, view, readVal, activeSlot] using hread
  · intro n
    rw [readVal_viewStep_iterate, hread]

theorem set_publishes_witness :
    (set 9 (pairLockNew (1 : Nat) 0)).1 = 0 ∧
    readVal (set 9 (pairLockNew (1 : Nat) 0)).2 = 9 := by
  have h := set_publishes 9 (pairLockNew (1 : Nat) 0) (by decide)
  exact ⟨h.1, h.2.1⟩

/-- C6 counterexample: `PairLock::new` does not fit the claimed initial
shape for any constant `k` — its counter starts at `0`, which forces
`k = 0`, but `finished_reads[1]` and the drain target start at `!0 = 2^64-1`,
not at `k ⊕ 1 = 1`. -/
theorem pairLockNew_not_specInitShape :
    ¬ ∃ k : Nat, specInitShape k (pairLockNew (0 : Nat) 0) := by
  rintro ⟨k, -, hra, -, hother, -⟩
  have hk : k = 0 := by simpa [pairLockNew, eq_comm] using hra
  subst hk
  have h1 : otherSlot (slotOf 0) = 1 := by decide
  rw [h1] at hother
  simp only [pairLockNew] at hother
  norm_num [W] at hother

/-- C6 amended: the `ArcCell` variant satisfies the claimed initial shape
with `k = arcReadsStart debug` (in debug builds `k = !0 << 2 = 2^64 - 4`,
close to integer-max); the `PairLock` variant instead always starts its
counter at `0` with `finished_reads[1]` and the drain target at
`!0 = 2^64 - 1` — bit 0 of the drain target still names the inactive slot
and that slot starts drained, and wraparound is exercised through this
initialization rather than through the counter start. -/
theorem initial_state_shapes :
    (∀ (A : Type) (debug : Bool) (v : A),
        arcSpecInitShape (arcReadsStart debug) (arcCellNew debug v)) ∧
    arcReadsStart true = W - 4 ∧
    (∀ (T : Type) (a b : T),
        (pairLockNew a b).reads_active = 0 ∧
        (pairLockNew a b).finished_reads 0 = 0 ∧
        (pairLockNew a b).finished_reads 1 = W - 1 ∧
        (pairLockNew a b).inactive_reads = W - 1 ∧
        slotOf (pairLockNew a b).inactive_reads = inactiveSlot (pairLockNew a b) ∧
        (pairLockNew a b).finished_reads (slotOf (pairLockNew a b).inactive_reads) =
          (pairLockNew a b).inactive_reads) := by
  refine ⟨?_, by decide, ?_⟩
  · intro A debug v
    cases debug
    · refine ⟨by decide, rfl, ?_, ?_, ?_⟩ <;>
        simp [arcCellNew, arcReadsStart, slotOf, otherSlot, W]
    · refine ⟨by decide, rfl, ?_, ?_, ?_⟩ <;>
        simp [arcCellNew, arcReadsStart, slotOf, otherSlot, W]
  · intro T a b
    have h1 : slotOf (W - 1) = 1 := by decide
    have h2 : inactiveSlot (pairLockNew a b) = 1 := by
      simp [inactiveSlot, activeSlot, pairLockNew]
      decide
    refine ⟨rfl, by simp [pairLockNew], by simp [pairLockNew], rfl, ?_, ?_⟩
    · show slotOf (W - 1) = inactiveSlot (pairLockNew a b)
      rw [h1, h2]
    · show (pairLockNew a b).finished_reads (slotOf (W - 1)) = W - 1
      rw [h1]
      simp [pairLockNew]

/-- C10: `clone()` builds a fresh `PairLock` (counters as by `new`) whose two
slots both hold the source's active value — replacing the source's inactive
value changes nothing about the result — and `clone_from` overwrites both of
the destination's slots with the source's active value, leaving the
destination's counters untouched. -/
theorem clone_spec (s : State T) :
    (clonePairLock s).1 = pairLockNew (readVal s) (readVal s) ∧
    (clonePairLock s).2 = viewStep (viewStep s) ∧
    (∀ x : T,
      (clonePairLock { s with
        values := Function.update s.values (inactiveSlot s) x }).1 =
      (clonePairLock s).1) ∧
    (∀ dest : State T,
      (cloneFromPairLock dest s).1 =
        { dest with values := fun _ => readVal s } ∧
      (cloneFromPairLock dest s).2 = viewStep s) := by
  have hclone : ∀ u : State T,
      (clonePairLock u).1 = pairLockNew (readVal u) (readVal u) := by
    intro u
    show pairLockNew (readVal u) (readVal (viewStep u)) = _
    rw [readVal_viewStep]
  refine ⟨hclone s, rfl, ?_, ?_⟩
  · intro x
    rw [hclone, hclone]
    have hv : readVal { s with
        values := Function.update s.values (inactiveSlot s) x } = readVal s := by
      simp only [readVal, activeSlot]
      rw [Function.update_apply, if_neg]
      exact fun h => otherSlot_ne (slotOf s.reads_active) h.symm
    rw [hv]
  · intro dest
    have hfun : ∀ v : T, Function.update (Function.update dest.values 0 v) 1
        (Function.update dest.values 0 v 0) = fun _ => v := by
      intro v
      funext i
      fin_cases i <;> simp [Function.update_apply]
    constructor
    · simp only [cloneFromPairLock, view, id_eq, hfun]
      rfl
    · rfl

/-- C5: the exit increment of `view` runs exactly once on every path out of
the viewing scope — also when the closure aborts by unwinding — because the
`Releaser` drop guard performs it; the closure's outcome (value or panic) is
propagated unchanged and the counter effect is identical on both paths. -/
theorem viewUnwind_always_releases (E R : Type) (f : T → Except E R) (s : State T) :
    (viewUnwind f s).2 = viewStep s ∧
    (viewUnwind f s).2.finished_reads (slotOf s.reads_active) =
      (s.finished_reads (slotOf s.reads_active) + 2) % W ∧
    (viewUnwind f s).1 = f (s.values (activeSlot s)) := by
  have hstate : (viewUnwind f s).2 = viewStep s := by
    unfold viewUnwind
    cases h : f (s.values (slotOf s.reads_active)) <;> simp [h]
  have hout : (viewUnwind f s).1 = f (s.values (activeSlot s)) := by
    unfold viewUnwind
    cases h : f (s.values (slotOf s.reads_active)) <;> simp [activeSlot, h]
  refine ⟨hstate, ?_, hout⟩
  rw [hstate]
  simp [viewStep]

/-- C4: `try_update` discriminates its failures: `OtherUpdate` exactly when
the writer lock is held by another updater (the state is then untouched);
when the lock is acquired but the inactive slot is not drained,
`InactiveReads` is returned with the lock released; when the lock is free
and the inactive slot is drained, a guard holding the drain target is
returned with the lock held. -/
theorem tryUpdate_spec (s : State T) :
    ((tryUpdate s).1 = Except.error TryUpdateError.OtherUpdate ↔ s.locked = true) ∧
    (s.locked = true → (tryUpdate s).2 = s) ∧
    (s.locked = false →
      s.finished_reads (slotOf s.inactive_reads) ≠ s.inactive_reads →
      (tryUpdate s).1 = Except.error TryUpdateError.InactiveReads ∧
      (tryUpdate s).2.locked = false) ∧
    (s.locked = false →
      s.finished_reads (slotOf s.inactive_reads) = s.inactive_reads →
      (tryUpdate s).1 = Except.ok ⟨s.inactive_reads⟩ ∧
      (tryUpdate s).2.locked = true) := by
  unfold tryUpdate
  by_cases hl : s.locked
  · simp [hl]
  · simp only [hl, Bool.false_eq_true, if_false]
    by_cases hd : s.finished_reads (slotOf s.inactive_reads) = s.inactive_reads
    · simp [hd, hl]
    · simp [hd, hl]

/-- Concrete state with the lock free and the inactive slot not drained. -/
def undrainedState : State Nat :=
  { reads_active := 0
    finished_reads := fun _ => 0
    values := fun _ => 0
    inactive_reads := 1
    locked := false }

theorem tryUpdate_spec_witness :
    (tryUpdate undrainedState).1 = Except.error TryUpdateError.InactiveReads ∧
    (tryUpdate undrainedState).2.locked = false ∧
    (tryUpdate { undrainedState with locked := true }).1 =
      Except.error TryUpdateError.OtherUpdate := by
  have h1 := (tryUpdate_spec undrainedState).2.2.1 (by decide) (by decide)
  have h2 := ((tryUpdate_spec { undrainedState with locked := true }).1).2 (by decide)
  exact ⟨h1.1, h1.2, h2⟩

theorem arcActiveSlot_getStep (s : ArcState A) :
    arcActiveSlot (arcGetStep s) = arcActiveSlot s := by
  simp [arcActiveSlot, arcGetStep, slotOf_add_two_mod]

/-- C3: in every state reachable outside the writer critical section — in
both variants — bit 0 of the drain target names the inactive slot (i.e.
equals bit 0 of the active counter xor 1): publication swaps the active
counter with the drain target and stores the old active counter back, and
reader increments of 2 never touch bit 0. -/
theorem drain_target_names_inactive :
    (∀ (T : Type) (s : State T), Reach s →
      slotOf s.inactive_reads = inactiveSlot s) ∧
    (∀ (A : Type) (s : ArcState A), ArcReach s → arcBitInv s) := by
  constructor
  · intro T s h
    induction h with
    | new a b =>
        show slotOf (W - 1) = inactiveSlot (pairLockNew a b)
        simp only [inactiveSlot, activeSlot, pairLockNew]
        decide
    | view h ih =>
        show slotOf _ = inactiveSlot (viewStep _)
        simp only [inactiveSlot, viewStep, activeSlot, slotOf_add_two_mod]
        exact ih
    | update g h ih =>
        show slotOf _ = inactiveSlot (updateDrop g _)
        simp only [inactiveSlot, updateDrop, activeSlot] at ih ⊢
        rw [ih, otherSlot_otherSlot]
    | cancel g h ih =>
        show slotOf _ = inactiveSlot (updateCancel g _)
        simpa [inactiveSlot, updateCancel, activeSlot] using ih
  · intro A s h
    induction h with
    | new debug init =>
        show arcBitInv (arcCellNew debug init)
        simp only [arcBitInv, arcActiveSlot, arcCellNew]
        cases debug <;> decide
    | get h ih =>
        show arcBitInv (arcGetStep _)
        simp only [arcBitInv, arcGetStep, arcActiveSlot, slotOf_add_two_mod] at ih ⊢
        exact ih
    | set arc h ih =>
        show arcBitInv (arcSet arc _).2
        simp only [arcBitInv, arcSet, arcActiveSlot] at ih ⊢
        rw [ih, otherSlot_otherSlot]

theorem drain_target_names_inactive_witness :
    slotOf (pairLockNew (1 : Nat) 0).inactive_reads =
      inactiveSlot (pairLockNew (1 : Nat) 0) :=
  drain_target_names_inactive.1 Nat (pairLockNew 1 0) (Reach.new 1 0)

/-- Supporting result: every reachable state satisfies the full sequential
invariant — in particular `Inv`, the hypothesis of the round-trip theorems:
entries and exits balance on the active slot, and the inactive slot is
drained. -/
theorem reach_inv (T : Type) (s : State T) (h : Reach s) :
    s.finished_reads (activeSlot s) = s.reads_active ∧ Inv s := by
  induction h with
  | new a b =>
      refine ⟨?_, ?_, ?_, ?_, ?_, ?_, ?_⟩
      · show (pairLockNew a b).finished_reads (slotOf 0) = 0
        rw [show slotOf 0 = 0 from by decide]
        simp [pairLockNew]
      · show slotOf (W - 1) = inactiveSlot (pairLockNew a b)
        simp only [inactiveSlot, activeSlot, pairLockNew]
        decide
      · show (pairLockNew a b).finished_reads (slotOf (W - 1)) = W - 1
        rw [show slotOf (W - 1) = 1 from by decide]
        simp [pairLockNew]
      · show (0 : Nat) < W
        decide
      · show W - 1 < W
        decide
      · intro i
        fin_cases i <;> simp [pairLockNew] <;> decide
      · rfl
  | view h ih =>
      rename_i s
      obtain ⟨hact, hbit, hdrain, hra, hin, hfin, hlk⟩ := ih
      have hact' : s.finished_reads (slotOf s.reads_active) = s.reads_active := hact
      have hbit' : slotOf s.inactive_reads = otherSlot (slotOf s.reads_active) := hbit
      have hne : slotOf s.inactive_reads ≠ slotOf s.reads_active := by
        rw [hbit']
        exact otherSlot_ne _
      refine ⟨?_, ?_, ?_, ?_, ?_, ?_, ?_⟩
      · rw [show activeSlot (viewStep s) = activeSlot s from activeSlot_viewStep s]
        show Function.update s.finished_reads (slotOf s.reads_active)
          ((s.finished_reads (slotOf s.reads_active) + 2) % W)
          (slotOf s.reads_active) = (s.reads_active + 2) % W
        rw [Function.update_same, hact']
      · show slotOf s.inactive_reads = inactiveSlot (viewStep s)
        simp only [inactiveSlot, activeSlot_viewStep]
        exact hbit
      · show Function.update s.finished_reads (slotOf s.reads_active)
          ((s.finished_reads (slotOf s.reads_active) + 2) % W)
          (slotOf s.inactive_reads) = s.inactive_reads
        rw [Function.update_noteq hne]
        exact hdrain
      · exact Nat.mod_lt _ (by decide)
      · exact hin
      · intro i
        by_cases hi : i = slotOf s.reads_active
        · rw [hi]
          show Function.update s.finished_reads (slotOf s.reads_active)
            ((s.finished_reads (slotOf s.reads_active) + 2) % W)
            (slotOf s.reads_active) < W
          rw [Function.update_same]
          exact Nat.mod_lt _ (by decide)
        · show Function.update s.finished_reads (slotOf s.reads_active)
            ((s.finished_reads (slotOf s.reads_active) + 2) % W) i < W
          rw [Function.update_noteq hi]
          exact hfin i
      · exact hlk
  | update g h ih =>
      rename_i s
      obtain ⟨hact, hbit, hdrain, hra, hin, hfin, hlk⟩ := ih
      refine ⟨?_, ?_, ?_, ?_, ?_, ?_, ?_⟩
      · exact hdrain
      · show slotOf s.reads_active = inactiveSlot (updateDrop g s)
        show slotOf s.reads_active = otherSlot (slotOf s.inactive_reads)
        rw [show slotOf s.inactive_reads = otherSlot (slotOf s.reads_active) from hbit,
          otherSlot_otherSlot]
      · exact hact
      · exact hin
      · exact hra
      · exact hfin
      · exact hlk
  | cancel g h ih => exact ih

/-- Actions that neither take, release, nor yield the lock. -/
def calmAction : WAction → Bool
  | WAction.check => true
  | WAction.spin => true
  | WAction.acquire => true
  | _ => false

/-- All actions in the trace are calm. -/
def calmActions : List WAction → Bool
  | [] => true
  | a :: rest => calmAction a && calmActions rest

/-- Number of `spin` actions in a trace. -/
def countSpins : List WAction → Nat
  | [] => 0
  | WAction.spin :: rest => countSpins rest + 1
  | _ :: rest => countSpins rest

/-- True when the trace never releases the lock. -/
def noUnlock : List WAction → Bool
  | [] => true
  | WAction.unlock :: _ => false
  | _ :: rest => noUnlock rest

theorem spinRound_calm (drained : Nat → Bool) :
    ∀ n t, calmActions (spinRound drained t n).1 = true := by
  intro n
  induction n with
  | zero => intro t; rfl
  | succ n ih =>
      intro t
      by_cases h : drained t = true
      · simp [spinRound, h, calmActions, calmAction]
      · simp only [spinRound, h, Bool.false_eq_true, if_false]
        show (calmAction WAction.check &&
          (calmAction WAction.spin && calmActions (spinRound drained (t + 1) n).1)) = true
        rw [ih (t + 1)]
        rfl

theorem spinRound_countSpins (drained : Nat → Bool) :
    ∀ n t, countSpins (spinRound drained t n).1 ≤ n := by
  intro n
  induction n with
  | zero => intro t; exact Nat.le_refl 0
  | succ n ih =>
      intro t
      by_cases h : drained t = true
      · simp [spinRound, h, countSpins]
      · simp only [spinRound, h, Bool.false_eq_true, if_false]
        show countSpins (WAction.check :: WAction.spin :: (spinRound drained (t + 1) n).1) ≤ n + 1
        show countSpins (spinRound drained (t + 1) n).1 + 1 ≤ n + 1
        exact Nat.succ_le_succ (ih (t + 1))

theorem yieldsOnlyUnlocked_lock (held : Bool) (l : List WAction) :
    yieldsOnlyUnlocked held (WAction.lock :: l) = yieldsOnlyUnlocked true l := rfl

theorem yieldsOnlyUnlocked_unlock (held : Bool) (l : List WAction) :
    yieldsOnlyUnlocked held (WAction.unlock :: l) = yieldsOnlyUnlocked false l := rfl

theorem yieldsOnlyUnlocked_yield (held : Bool) (l : List WAction) :
    yieldsOnlyUnlocked held (WAction.yieldNow :: l) =
      (!held && yieldsOnlyUnlocked held l) := rfl

theorem spinsBounded_lock (b cnt : Nat) (l : List WAction) :
    spinsBounded b cnt (WAction.lock :: l) = spinsBounded b 0 l := rfl

theorem spinsBounded_unlock (b cnt : Nat) (l : List WAction) :
    spinsBounded b cnt (WAction.unlock :: l) = spinsBounded b cnt l := rfl

theorem spinsBounded_yield (b cnt : Nat) (l : List WAction) :
    spinsBounded b cnt (WAction.yieldNow :: l) = spinsBounded b cnt l := rfl

theorem yieldsOnlyUnlocked_append_calm :
    ∀ (acts : List WAction), calmActions acts = true →
    ∀ (held : Bool) (rest : List WAction),
      yieldsOnlyUnlocked held (acts ++ rest) = yieldsOnlyUnlocked held rest := by
  intro acts
  induction acts with
  | nil => intro _ held rest; rfl
  | cons a t ih =>
      intro h held rest
      have h2 : calmAction a = true ∧ calmActions t = true := by
        have h1 : (calmAction a && calmActions t) = true := h
        rw [Bool.and_eq_true] at h1
        exact h1
      cases a with
      | lock => simp [calmAction] at h2
      | unlock => simp [calmAction] at h2
      | yieldNow => simp [calmAction] at h2
      | check =>
          show yieldsOnlyUnlocked held (t ++ rest) = _
          exact ih h2.2 held rest
      | spin =>
          show yieldsOnlyUnlocked held (t ++ rest) = _
          exact ih h2.2 held rest
      | acquire =>
          show yieldsOnlyUnlocked held (t ++ rest) = _
          exact ih h2.2 held rest

theorem spinsBounded_append_calm :
    ∀ (acts : List WAction), calmActions acts = true →
    ∀ (b cnt : Nat) (rest : List WAction),
      cnt + countSpins acts ≤ b →
      spinsBounded b cnt (acts ++ rest) =
        spinsBounded b (cnt + countSpins acts) rest := by
  intro acts
  induction acts with
  | nil => intro _ b cnt rest _; rfl
  | cons a t ih =>
      intro h b cnt rest hle
      have h2 : calmAction a = true ∧ calmActions t = true := by
        have h1 : (calmAction a && calmActions t) = true := h
        rw [Bool.and_eq_true] at h1
        exact h1
      cases a with
      | lock => simp [calmAction] at h2
      | unlock => simp [calmAction] at h2
      | yieldNow => simp [calmAction] at h2
      | check =>
          show spinsBounded b cnt (t ++ rest) = spinsBounded b (cnt + countSpins t) rest
          exact ih h2.2 b cnt rest hle
      | acquire =>
          show spinsBounded b cnt (t ++ rest) = spinsBounded b (cnt + countSpins t) rest
          exact ih h2.2 b cnt rest hle
      | spin =>
          have hcnt : countSpins (WAction.spin :: t) = countSpins t + 1 := rfl
          rw [hcnt] at hle
          have h1 : cnt + 1 ≤ b := by omega
          show (decide (cnt + 1 ≤ b) && spinsBounded b (cnt + 1) (t ++ rest)) =
            spinsBounded b (cnt + countSpins (WAction.spin :: t)) rest
          rw [decide_eq_true h1, Bool.true_and, ih h2.2 b (cnt + 1) rest (by omega), hcnt]
          congr 1
          omega

theorem updateLoop_never_yields_locked (drained : Nat → Bool) :
    ∀ fuel t, yieldsOnlyUnlocked false (updateLoopTrace drained t fuel) = true := by
  intro fuel
  induction fuel with
  | zero => intro t; rfl
  | succ fuel ih =>
      intro t
      simp only [updateLoopTrace]
      by_cases h : (spinRound drained t MAX_UPDATE_SPINS).2.1 = true
      · rw [if_pos h, yieldsOnlyUnlocked_lock,
          ← List.append_nil (spinRound drained t MAX_UPDATE_SPINS).1,
          yieldsOnlyUnlocked_append_calm _ (spinRound_calm drained _ t)]
        rfl
      · rw [if_neg h, List.append_assoc, List.cons_append, yieldsOnlyUnlocked_lock,
          yieldsOnlyUnlocked_append_calm _ (spinRound_calm drained _ t),
          List.cons_append, List.cons_append, List.nil_append,
          yieldsOnlyUnlocked_unlock, yieldsOnlyUnlocked_yield, ih]
        rfl

theorem updateLoop_spins_bounded (drained : Nat → Bool) :
    ∀ fuel t cnt,
      spinsBounded MAX_UPDATE_SPINS cnt (updateLoopTrace drained t fuel) = true := by
  intro fuel
  induction fuel with
  | zero => intro t cnt; rfl
  | succ fuel ih =>
      intro t cnt
      have hle : 0 + countSpins (spinRound drained t MAX_UPDATE_SPINS).1 ≤
          MAX_UPDATE_SPINS := by
        have := spinRound_countSpins drained MAX_UPDATE_SPINS t
        omega
      simp only [updateLoopTrace]
      by_cases h : (spinRound drained t MAX_UPDATE_SPINS).2.1 = true
      · rw [if_pos h, spinsBounded_lock,
          ← List.append_nil (spinRound drained t MAX_UPDATE_SPINS).1,
          spinsBounded_append_calm _ (spinRound_calm drained _ t) _ _ _ hle]
        rfl
      · rw [if_neg h, List.append_assoc, List.cons_append, spinsBounded_lock,
          spinsBounded_append_calm _ (spinRound_calm drained _ t) _ _ _ hle,
          List.cons_append, List.cons_append, List.nil_append,
          spinsBounded_unlock, spinsBounded_yield]
        exact ih _ _

theorem arcSetWhile_noUnlock (drained : Nat → Bool) :
    ∀ fuel t, noUnlock (arcSetWhile drained t fuel) = true := by
  intro fuel
  induction fuel with
  | zero => intro t; rfl
  | succ fuel ih =>
      intro t
      simp only [arcSetWhile]
      by_cases h : drained t = true
      · rw [if_pos h]
        rfl
      · rw [if_neg h]
        show noUnlock (arcSetWhile drained (t + 1) fuel) = true
        exact ih (t + 1)

theorem arcSetWhile_countSpins (drained : Nat → Bool) :
    ∀ fuel t, countSpins (arcSetWhile drained t fuel) = 0 := by
  intro fuel
  induction fuel with
  | zero => intro t; rfl
  | succ fuel ih =>
      intro t
      simp only [arcSetWhile]
      by_cases h : drained t = true
      · rw [if_pos h]
        rfl
      · rw [if_neg h]
        show countSpins (arcSetWhile drained (t + 1) fuel) = 0
        exact ih (t + 1)

/-- C7 counterexample: with the inactive slot never drained, the
`ArcCell::set` drain wait yields to the scheduler while still holding the
writer lock — its trace contains a yield but never releases the lock — and it
performs 4 spin-hint iterations rather than 7. -/
theorem arc_drain_wait_violates_claim :
    yieldsOnlyUnlocked false (arcSetTrace (fun _ => false) 1) = false ∧
    noUnlock (arcSetTrace (fun _ => false) 1) = true ∧
    countSpins (arcSetTrace (fun _ => false) 1) = 4 := by
  refine ⟨by decide, by decide, by decide⟩

/-- C7 amended: the claimed spin-then-yield policy holds for
`PairLock::update` — at most `MAX_UPDATE_SPINS = 7` spin iterations per lock
acquisition, the lock always released before yielding (the writer never
yields while holding it), and the acquisition restarted from the beginning —
while `ArcCell::set` instead spins 4 hint iterations after a failed check
and then yields repeatedly while still holding the writer lock, never
releasing it until the drain completes. -/
theorem writer_drain_wait_policy :
    (∀ (drained : Nat → Bool) (fuel t : Nat),
      yieldsOnlyUnlocked false (updateLoopTrace drained t fuel) = true) ∧
    (∀ (drained : Nat → Bool) (fuel t cnt : Nat),
      spinsBounded MAX_UPDATE_SPINS cnt (updateLoopTrace drained t fuel) = true) ∧
    MAX_UPDATE_SPINS = 7 ∧
    (∀ (drained : Nat → Bool) (fuel : Nat),
      noUnlock (arcSetTrace drained fuel) = true) ∧
    (∀ (drained : Nat → Bool) (fuel : Nat),
      countSpins (arcSetTrace drained fuel) = if drained 0 then 0 else 4) ∧
    yieldsOnlyUnlocked false (arcSetTrace (fun _ => false) 2) = false := by
  refine ⟨updateLoop_never_yields_locked, updateLoop_spins_bounded, rfl, ?_, ?_, by decide⟩
  · intro drained fuel
    simp only [arcSetTrace]
    by_cases h : drained 0 = true
    · rw [if_pos h]
      rfl
    · rw [if_neg h]
      show noUnlock (arcSetWhile drained 1 fuel) = true
      exact arcSetWhile_noUnlock drained fuel 1
  · intro drained fuel
    simp only [arcSetTrace]
    by_cases h : drained 0 = true
    · rw [if_pos h, if_pos h]
      rfl
    · rw [if_neg h, if_neg h]
      show countSpins (arcSetWhile drained 1 fuel) + 1 + 1 + 1 + 1 = 4
      rw [arcSetWhile_countSpins drained fuel 1]

/-- C9 counterexample: no assignment of the two sanctioned schemes to the two
reader paths matches the source — `PairLock::view` is not option (a) (its
exit increment is relaxed, not seq-cst) and `ArcCell::get` is neither option
(a) nor option (b) (acquire entry, release exit, no fence). -/
theorem reader_orderings_counterexample :
    ¬ ((optionA pairLockViewPath ∧ optionB arcCellGetPath) ∨
       (optionA arcCellGetPath ∧ optionB pairLockViewPath)) := by
  decide

/-- C9 amended: `PairLock::view` uses a sequentially-consistent entry
increment and, on exit, a seq-cst fence followed by a relaxed increment —
option (b) with the entry strengthened from acquire to seq-cst, i.e. an
option-(c) "equivalent stronger combination" — while `ArcCell::get` uses an
acquire entry increment and a release exit increment with no fence, which is
neither of the two sanctioned schemes. -/
theorem reader_orderings :
    pairLockViewPath =
      { entry := MemOrder.seqcst
        exitFence := some MemOrder.seqcst
        exit := MemOrder.relaxed } ∧
    arcCellGetPath =
      { entry := MemOrder.acquire
        exitFence := none
        exit := MemOrder.release } ∧
    optionB { pairLockViewPath with entry := MemOrder.acquire } ∧
    ¬ optionA pairLockViewPath ∧ ¬ optionB pairLockViewPath ∧
    ¬ optionA arcCellGetPath ∧ ¬ optionB arcCellGetPath := by
  refine ⟨rfl, rfl, by decide, by decide, by decide, by decide, by decide⟩

end Pairlock
